import Mathlib

/-!
Verification of the price-classification and presentation pipeline of the
electricity spot-price dashboard (`streamlit_app.py`).

The embedding below translates the pure logic of the script:
  * `apply_unit_and_vat` — unit / value-added-tax display transform,
  * `rank_sets` — the top-16 / next-8 price classifier,
  * `to_dataframe` — timestamp parsing, timezone localization, sorting,
  * `build_plotly_figure` — the per-bar color and marker-line rules,
  * the `st.session_state.selected_idx` initialization logic,
  * `fetch_day_rows` — the fetch-and-validate boundary.

Python floats are modelled as rationals (the spec's transform properties are
exact algebraic identities), Python dicts for price rows as structures with
optional fields (`dict.get` defaulting and raising `dict[...]` access are both
modelled), and Python's stable `sorted` as `List.mergeSort`.
-/

namespace ElprisApp

/-- Constant `VAT_RATE = 0.25` from the configuration section. -/
def VAT_RATE : ℚ := 1 / 4

/-- Constant `COLOR_TOP16_PURPLE = "#8E44AD"`. -/
def COLOR_TOP16_PURPLE : String := "#8E44AD"

/-- Constant `COLOR_NEXT8_RED = "#E74C3C"`. -/
def COLOR_NEXT8_RED : String := "#E74C3C"

/-- Constant `COLOR_OTHER_GREEN = "#2ECC71"`. -/
def COLOR_OTHER_GREEN : String := "#2ECC71"

/-- One upstream price row (a JSON object from the API).  The two fields the
script reads are `time_start` and `SEK_per_kWh`; each is `Option`-valued
because a Python dict may lack either key (a defaulting `r.get` and a raising
`r[...]` access are distinguished in the source). -/
structure RawRow where
  time_start : Option String
  SEK_per_kWh : Option ℚ
deriving DecidableEq, Repr

/-- Function `apply_unit_and_vat(sek_per_kwh, display_ore, include_vat)`:
`price = sek_per_kwh * (1 + VAT_RATE) if include_vat else sek_per_kwh`,
then `price * 100 if display_ore else price`. -/
def apply_unit_and_vat (sek_per_kwh : ℚ) (display_ore include_vat : Bool) : ℚ :=
  let price := if include_vat then sek_per_kwh * (1 + VAT_RATE) else sek_per_kwh
  if display_ore then price * 100 else price

/-- Sort key used by `rank_sets`: `r.get("SEK_per_kWh", 0.0)` — the raw price,
defaulting to `0.0` when the key is absent. -/
def sortKey (r : RawRow) : ℚ :=
  r.SEK_per_kWh.getD 0

/-- Comparator of `sorted(rows, key=..., reverse=True)`: descending by
`sortKey`.  Python's sort is stable and `reverse=True` does not reverse ties,
which `List.mergeSort` with this (non-strict) comparator reproduces. -/
def rankLe (a b : RawRow) : Bool :=
  decide (sortKey b ≤ sortKey a)

/-- Line `sorted_rows = sorted(rows, key=lambda r: r.get("SEK_per_kWh", 0.0), reverse=True)`. -/
def sortRowsDesc (rows : List RawRow) : List RawRow :=
  rows.mergeSort rankLe

/-- Identifier extraction of the set comprehensions
`{r["time_start"] for r in ...}`: the `r["time_start"]` subscript raises
(`KeyError`) when the key is absent, so the whole extraction fails (`none`)
as soon as any listed row lacks `time_start`. -/
def ids? : List RawRow → Option (List String)
  | [] => some []
  | r :: rs =>
    match r.time_start, ids? rs with
    | some i, some is => some (i :: is)
    | _, _ => none

/-- Function `rank_sets(rows)`: sort descending by raw price, then
`top16 = {r["time_start"] for r in sorted_rows[:16]}` and
`next8 = {r["time_start"] for r in sorted_rows[16:24]}`.  The result is
`none` exactly when a subscript access raises. -/
def rank_sets (rows : List RawRow) : Option (Finset String × Finset String) :=
  let sorted_rows := sortRowsDesc rows
  match ids? (sorted_rows.take 16), ids? ((sorted_rows.drop 16).take 8) with
  | some top16, some next8 => some (top16.toFinset, next8.toFinset)
  | _, _ => none

/-- Display-price sort key, written from the spec's round-trip property
("re-deriving rank membership from display prices"): rank by the transformed
display price `apply_unit_and_vat` instead of the raw price. -/
def displayKey (display_ore include_vat : Bool) (r : RawRow) : ℚ :=
  apply_unit_and_vat (sortKey r) display_ore include_vat

/-- Descending comparator on display prices, the display-price counterpart of
`rankLe`. -/
def rankLeDisplay (display_ore include_vat : Bool) (a b : RawRow) : Bool :=
  decide (displayKey display_ore include_vat b ≤ displayKey display_ore include_vat a)

/-- Spec-side re-derivation of `rank_sets` that classifies by display price:
identical to `rank_sets` except that the stable descending sort uses
`rankLeDisplay` (the transformed prices) as its key. -/
def rank_sets_display (display_ore include_vat : Bool) (rows : List RawRow) :
    Option (Finset String × Finset String) :=
  let sorted_rows := rows.mergeSort (rankLeDisplay display_ore include_vat)
  match ids? (sorted_rows.take 16), ids? ((sorted_rows.drop 16).take 8) with
  | some top16, some next8 => some (top16.toFinset, next8.toFinset)
  | _, _ => none

/-- Decoded body of `r.json()` as the script inspects it: the call may raise
(malformed body), return a non-list JSON value, or return a list of price
rows. -/
inductive JsonBody where
  | raises
  | nonList
  | list (rows : List RawRow)
deriving DecidableEq

/-- Outcome of the network call `requests.get(url, timeout=20)`: the call
raises (transport error, timeout), or yields a response carrying a status
code and a body. -/
inductive FetchOutcome where
  | transportError
  | response (status_code : Nat) (body : JsonBody)
deriving DecidableEq

/-- Function `fetch_day_rows(date, area)`, evaluated against the outcome of
its network call.  The whole body runs inside `try/except Exception: return
None`, so a raising `requests.get` or `r.json()` yields `none`; a status
other than 200 yields `none`; `return data if isinstance(data, list) and
len(data) > 0 else None` keeps only non-empty lists. -/
def fetch_day_rows (o : FetchOutcome) : Option (List RawRow) :=
  match o with
  | .transportError => none
  | .response status_code body =>
    if status_code ≠ 200 then none
    else
      match body with
      | .raises => none
      | .nonList => none
      | .list data => if data.length > 0 then some data else none

/-- Gregorian leap-year rule, as used by the proleptic civil calendar that
`pandas.to_datetime` parses against. -/
def is_leap (y : Nat) : Bool :=
  y % 4 == 0 && (y % 100 != 0 || y % 400 == 0)

/-- Length of month `m` (1-based) of year `y` in the civil calendar. -/
def days_in_month (y m : Nat) : Nat :=
  if m = 2 then (if is_leap y then 29 else 28)
  else if m = 4 ∨ m = 6 ∨ m = 9 ∨ m = 11 then 30
  else 31

/-- Days from 1970-01-01 to civil date `y-m-d` (standard civil-calendar
conversion, Hinnant's algorithm). -/
def days_from_civil (y : Int) (m d : Nat) : Int :=
  let y' : Int := if m ≤ 2 then y - 1 else y
  let era : Int := y'.fdiv 400
  let yoe : Nat := (y' - era * 400).toNat
  let doy : Nat := (153 * (if 2 < m then m - 3 else m + 9) + 2) / 5 + d - 1
  let doe : Nat := yoe * 365 + yoe / 4 - yoe / 100 + doy
  era * 146097 + (doe : Int) - 719468

/-- Civil year containing epoch day `z` (inverse direction of
`days_from_civil`, same algorithm family). -/
def civil_year_from_days (z : Int) : Int :=
  let z' := z + 719468
  let era := z'.fdiv 146097
  let doe : Nat := (z' - era * 146097).toNat
  let yoe : Nat := (doe - doe / 1460 + doe / 36524 - doe / 146096) / 365
  let doy : Nat := doe - (365 * yoe + yoe / 4 - yoe / 100)
  let mp : Nat := (5 * doy + 2) / 153
  let m : Nat := if mp < 10 then mp + 3 else mp - 9
  era * 400 + (yoe : Int) + (if m ≤ 2 then 1 else 0)

/-- Epoch day of the last Sunday of month `m` of year `y` (months with 31
days only, which covers the March and October daylight-saving switches).
Epoch day 0 (1970-01-01) was a Thursday, so `(d + 4) mod 7 = 0` means
Sunday. -/
def last_sunday (y : Int) (m : Nat) : Int :=
  let d := days_from_civil y m 31
  d - (d + 4).emod 7

/-- UTC offset, in seconds, of the `Europe/Stockholm` timezone at the instant
`t` (epoch seconds): CEST (+02:00) between the last Sundays of March and
October at 01:00 UTC, CET (+01:00) otherwise — the current EU
daylight-saving rule that `zoneinfo` applies to the modern dates this app
displays. -/
def stockholm_offset (t : Int) : Int :=
  let y := civil_year_from_days (t.fdiv 86400)
  let dst_start := last_sunday y 3 * 86400 + 3600
  let dst_stop := last_sunday y 10 * 86400 + 3600
  if dst_start ≤ t ∧ t < dst_stop then 7200 else 3600

/-- Numeric value of an ASCII digit. -/
def digit? (c : Char) : Option Nat :=
  if c.isDigit then some (c.toNat - 48) else none

/-- Two-digit decimal field. -/
def digits2 (a b : Char) : Option Nat := do
  let x ← digit? a
  let y ← digit? b
  some (10 * x + y)

/-- Four-digit decimal field. -/
def digits4 (a b c d : Char) : Option Nat := do
  let x ← digits2 a b
  let y ← digits2 c d
  some (100 * x + y)

/-- Trailing timezone designator of an ISO-8601 instant: `Z` or `±HH:MM`,
returning the designated UTC offset in seconds. -/
def parse_tz_suffix : List Char → Option Int
  | ['Z'] => some 0
  | ['+', o1, o2, ':', o3, o4] => do
    let oh ← digits2 o1 o2
    let om ← digits2 o3 o4
    if oh < 24 ∧ om < 60 then some ((oh * 3600 + om * 60 : Nat) : Int) else none
  | ['-', o1, o2, ':', o3, o4] => do
    let oh ← digits2 o1 o2
    let om ← digits2 o3 o4
    if oh < 24 ∧ om < 60 then some (-((oh * 3600 + om * 60 : Nat) : Int)) else none
  | _ => none

/-- Parse an ISO-8601 instant string `YYYY-MM-DDTHH:MM:SS` followed by `Z` or
`±HH:MM` into epoch seconds, the instant-level behavior of
`pd.to_datetime(..., utc=True)` on the API's `time_start` strings; malformed
strings fail (`pd.to_datetime` raises). -/
def parse_utc_instant (s : String) : Option Int :=
  match s.toList with
  | y1 :: y2 :: y3 :: y4 :: '-' :: m1 :: m2 :: '-' :: d1 :: d2 :: 'T' ::
      h1 :: h2 :: ':' :: n1 :: n2 :: ':' :: s1 :: s2 :: rest => do
    let y ← digits4 y1 y2 y3 y4
    let mo ← digits2 m1 m2
    let da ← digits2 d1 d2
    let h ← digits2 h1 h2
    let mi ← digits2 n1 n2
    let se ← digits2 s1 s2
    let off ← parse_tz_suffix rest
    if 1 ≤ mo ∧ mo ≤ 12 ∧ 1 ≤ da ∧ da ≤ days_in_month y mo ∧ h < 24 ∧ mi < 60 ∧ se < 60 then
      some (days_from_civil (y : Int) mo da * 86400 + ((h * 3600 + mi * 60 + se : Nat) : Int) - off)
    else none
  | _ => none

/-- One row of the normalized display table built by `to_dataframe`.
`start_instant` is the parsed instant in epoch seconds; `tz_convert(TZ)`
re-labels a UTC timestamp to `Europe/Stockholm` without changing the instant
it denotes, so the localized `start` column is the same instant together
with the zone's UTC offset there (`start_offset`). -/
structure DfRow where
  time_start : String
  start_instant : Int
  start_offset : Int
  price_display : ℚ
deriving DecidableEq, Repr

/-- Per-row work of `to_dataframe`: read `time_start` and `SEK_per_kWh`
(plain column access — missing keys make pandas fail), parse the timestamp
as a UTC instant, localize it to Stockholm, and compute
`price_display = apply_unit_and_vat(...)`. -/
def mk_display_row (display_ore include_vat : Bool) (r : RawRow) : Option DfRow := do
  let ts ← r.time_start
  let p ← r.SEK_per_kWh
  let t ← parse_utc_instant ts
  some ⟨ts, t, stockholm_offset t, apply_unit_and_vat p display_ore include_vat⟩

/-- Column-wise application of `mk_display_row`; fails as soon as any row
fails (pandas raises on the whole column). -/
def displays? (display_ore include_vat : Bool) : List RawRow → Option (List DfRow)
  | [] => some []
  | r :: rs =>
    match mk_display_row display_ore include_vat r, displays? display_ore include_vat rs with
    | some d, some ds => some (d :: ds)
    | _, _ => none

/-- Ascending comparator of `df.sort_values("start")`: tz-aware timestamps
compare by the instant they denote. -/
def startLe (a b : DfRow) : Bool :=
  decide (a.start_instant ≤ b.start_instant)

/-- Function `to_dataframe(rows, display_ore, include_vat)`: build the
display columns and sort ascending by the localized start timestamp. -/
def to_dataframe (rows : List RawRow) (display_ore include_vat : Bool) : Option (List DfRow) :=
  (displays? display_ore include_vat rows).map (fun ds => ds.mergeSort startLe)

/-- Per-bar fill colors of `build_plotly_figure`: the `for i, r in
df.iterrows()` loop assigns purple to members of `top16`, else red to members
of `next8`, else green, then executes the selected-bar branch
`if selected_idx is not None and i == selected_idx: c = c` (which reassigns
the same color). -/
def build_colors (top16 next8 : Finset String) (selected_idx : Option Nat)
    (df : List DfRow) : List String :=
  df.enum.map (fun p =>
    let c := if p.2.time_start ∈ top16 then COLOR_TOP16_PURPLE
      else if p.2.time_start ∈ next8 then COLOR_NEXT8_RED
      else COLOR_OTHER_GREEN
    if selected_idx.isSome ∧ selected_idx = some p.1 then c else c)

/-- Marker-line color of the bar trace, from `fig.update_traces(...,
marker=dict(color=colors, line=dict(color="black" if selected_idx is not None
else "rgba(0,0,0,0)", width=1)))`.  Plotly broadcasts this scalar `line`
setting over every bar of the trace. -/
def marker_line_color (selected_idx : Option Nat) : String :=
  if selected_idx.isSome then "black" else "rgba(0,0,0,0)"

/-- Marker-line width from the same `update_traces` call, broadcast to every
bar. -/
def MARKER_LINE_WIDTH : Nat := 1

/-- Marker of one rendered bar: fill color plus border (line) color and
width. -/
structure BarMarker where
  color : String
  line_color : String
  line_width : Nat
deriving DecidableEq, Repr

/-- Markers of all bars of the figure: per-bar fill colors from the color
loop, and the broadcast scalar marker line. -/
def build_bar_markers (top16 next8 : Finset String) (selected_idx : Option Nat)
    (df : List DfRow) : List BarMarker :=
  (build_colors top16 next8 selected_idx df).map
    (fun c => ⟨c, marker_line_color selected_idx, MARKER_LINE_WIDTH⟩)

/-- Lines 155-157 of the script:
`if "selected_idx" not in st.session_state: st.session_state.selected_idx =
None`.  The argument is the session entry before the run (`none` = key
absent, `some v` = key present holding `v`); the result is the entry's value
after this initialization, which is what `build_plotly_figure` receives.
Nothing in the script consults the fetched `date`/`area` here, so the same
initialization runs whether or not the fetch parameters changed. -/
def init_selected_idx (prev : Option (Option Nat)) : Option Nat :=
  match prev with
  | none => none
  | some v => v

/-- Observable outcome of one script run: the selection index the figure was
built with, and the session entry left for the next run. -/
structure RenderResult where
  used_selected : Option Nat
  state_after : Option (Option Nat)
deriving DecidableEq, Repr

/-- One fetch-and-render pass of the script (lines 139-179): initialize the
session key, build the figure for the freshly fetched table with that value,
then store the clicked bar index (if any) for subsequent runs. -/
def render_cycle (prev : Option (Option Nat)) (click : Option Nat) : RenderResult :=
  let cur := init_selected_idx prev
  match click with
  | some i => ⟨cur, some (some i)⟩
  | none => ⟨cur, some cur⟩

/-- Spec-side repair map for the missing-price reading of C9: replace a
missing `SEK_per_kWh` by the explicit price `0.0`, the default that
`r.get("SEK_per_kWh", 0.0)` supplies. -/
def fill_default_price (r : RawRow) : RawRow :=
  ⟨r.time_start, some (r.SEK_per_kWh.getD 0)⟩

/-- Concrete 24-row day, distinct identifiers and strictly descending
distinct prices. -/
def exRows24 : List RawRow :=
  (List.range 24).map (fun i => ⟨some (toString i), some ((24 - i : ℕ) : ℚ)⟩)

/-- The 24 rows above followed by one identifier-less row whose price sorts
last. -/
def exRows25 : List RawRow :=
  exRows24 ++ [⟨none, some 0⟩]

/-- A two-identifier duplicate-id row list. -/
def exRowsDup : List RawRow :=
  [⟨some "a", some 2⟩, ⟨some "a", some 1⟩]

/-- Two well-formed rows arriving in reverse time order. -/
def exRowsC8 : List RawRow :=
  [⟨some "2025-06-01T00:15:00Z", some (mkRat 6 5)⟩,
   ⟨some "2025-06-01T00:00:00Z", some (mkRat 1 2)⟩]

/-- The normalized table of `exRowsC8`: time-ascending, instants in epoch
seconds, Stockholm summer offset. -/
def exOutC8 : List DfRow :=
  [⟨"2025-06-01T00:00:00Z", 1748736000, 7200, mkRat 1 2⟩,
   ⟨"2025-06-01T00:15:00Z", 1748736900, 7200, mkRat 6 5⟩]

/-- A two-bar display table for the presenter witnesses. -/
def exDf2 : List DfRow :=
  [⟨"a", 0, 3600, 1⟩, ⟨"b", 900, 3600, 2⟩]

end ElprisApp

namespace ElprisApp

/-! ## Helper lemmas -/

theorem take_split {α : Type} (m n : ℕ) (l : List α) :
    l.take (m + n) = l.take m ++ (l.drop m).take n := by
  induction m generalizing l with
  | zero => simp
  | succ k ih =>
    cases l with
    | nil => simp
    | cons a t => simp [Nat.succ_add, ih]

theorem rankLe_trans (a b c : RawRow) : rankLe a b → rankLe b c → rankLe a c := by
  unfold rankLe
  intro h1 h2
  exact decide_eq_true (le_trans (of_decide_eq_true h2) (of_decide_eq_true h1))

theorem rankLe_total (a b : RawRow) : rankLe a b || rankLe b a := by
  unfold rankLe
  rcases le_total (sortKey b) (sortKey a) with h | h <;> simp [h]

theorem sortRowsDesc_perm (rows : List RawRow) : (sortRowsDesc rows).Perm rows :=
  List.mergeSort_perm rows rankLe

theorem sortRowsDesc_sorted (rows : List RawRow) :
    (sortRowsDesc rows).Pairwise (fun a b => sortKey b ≤ sortKey a) := by
  have h := List.sorted_mergeSort rankLe_trans rankLe_total rows
  exact h.imp (fun hab => of_decide_eq_true hab)

theorem ids?_eq_some_iff {l : List RawRow} {ys : List String} :
    ids? l = some ys ↔ l.map RawRow.time_start = ys.map some := by
  induction l generalizing ys with
  | nil =>
    cases ys <;> simp [ids?]
  | cons r rs ih =>
    cases ys with
    | nil =>
      cases hr : r.time_start <;> cases hrs : ids? rs <;> simp [ids?, hr, hrs]
    | cons y ys' =>
      cases hr : r.time_start with
      | none =>
        simp [ids?, hr]
      | some i =>
        cases hrs : ids? rs with
        | none =>
          simp only [ids?, hr, hrs, List.map_cons]
          constructor
          · intro h
            exact absurd h (by simp)
          · intro h
            rw [List.cons_eq_cons] at h
            exact absurd (hrs.symm.trans (ih.mpr h.2)) (by simp)
        | some is =>
          simp only [ids?, hr, hrs, List.map_cons]
          constructor
          · intro h
            rw [Option.some_inj, List.cons_eq_cons] at h
            rcases h with ⟨rfl, rfl⟩
            exact List.cons_eq_cons.mpr ⟨rfl, ih.mp hrs⟩
          · intro h
            rw [List.cons_eq_cons] at h
            have h2 := hrs.symm.trans (ih.mpr h.2)
            rw [Option.some_inj] at h2
            rw [Option.some_inj, List.cons_eq_cons]
            exact ⟨Option.some_inj.mp h.1, h2⟩

theorem ids?_eq_none_iff {l : List RawRow} :
    ids? l = none ↔ ∃ r ∈ l, r.time_start = none := by
  induction l with
  | nil => simp [ids?]
  | cons r rs ih =>
    cases hr : r.time_start with
    | none =>
      simp [ids?, hr]
    | some i =>
      cases hrs : ids? rs with
      | none =>
        simp only [ids?, hr, hrs]
        constructor
        · intro _
          rcases ih.mp hrs with ⟨r', hr', hts⟩
          exact ⟨r', List.mem_cons_of_mem _ hr', hts⟩
        · intro _
          trivial
      | some is =>
        simp only [ids?, hr, hrs]
        constructor
        · intro h
          exact absurd h (by simp)
        · rintro ⟨r', hr', hts⟩
          rcases List.mem_cons.mp hr' with rfl | hmem
          · rw [hr] at hts
            cases hts
          · have h2 := ih.mpr ⟨r', hmem, hts⟩
            rw [hrs] at h2
            cases h2

theorem ids?_isSome_of_forall {l : List RawRow}
    (h : ∀ r ∈ l, r.time_start.isSome) : ∃ ys, ids? l = some ys := by
  cases hl : ids? l with
  | none =>
    rcases ids?_eq_none_iff.mp hl with ⟨r, hr, hts⟩
    have := h r hr
    rw [hts] at this
    cases this
  | some ys => exact ⟨ys, rfl⟩

theorem ids?_length {l : List RawRow} {ys : List String}
    (h : ids? l = some ys) : ys.length = l.length := by
  have := congrArg List.length (ids?_eq_some_iff.mp h)
  simpa using this.symm

theorem ids?_mem_iff {l : List RawRow} {ys : List String}
    (h : ids? l = some ys) (y : String) :
    y ∈ ys ↔ ∃ r ∈ l, r.time_start = some y := by
  have hm := ids?_eq_some_iff.mp h
  constructor
  · intro hy
    have : some y ∈ l.map RawRow.time_start := by
      rw [hm]
      exact List.mem_map_of_mem _ hy
    rcases List.mem_map.mp this with ⟨r, hr, hts⟩
    exact ⟨r, hr, hts⟩
  · rintro ⟨r, hr, hts⟩
    have : some y ∈ ys.map some := by
      rw [← hm, ← hts]
      exact List.mem_map_of_mem _ hr
    rcases List.mem_map.mp this with ⟨y', hy', he⟩
    cases he
    exact hy'

theorem ids?_nodup {l : List RawRow} {ys : List String}
    (h : ids? l = some ys) (hn : (l.map RawRow.time_start).Nodup) : ys.Nodup := by
  rw [ids?_eq_some_iff.mp h] at hn
  exact hn.of_map some

theorem rank_sets_eq_of_ids {rows : List RawRow} {tl nl : List String}
    (ht : ids? ((sortRowsDesc rows).take 16) = some tl)
    (hn : ids? (((sortRowsDesc rows).drop 16).take 8) = some nl) :
    rank_sets rows = some (tl.toFinset, nl.toFinset) := by
  simp only [rank_sets]
  rw [ht, hn]

theorem rank_sets_success {rows : List RawRow}
    (hids : ∀ r ∈ rows, r.time_start.isSome) :
    ∃ tl nl, ids? ((sortRowsDesc rows).take 16) = some tl ∧
      ids? (((sortRowsDesc rows).drop 16).take 8) = some nl ∧
      rank_sets rows = some (tl.toFinset, nl.toFinset) := by
  have hmem : ∀ r ∈ sortRowsDesc rows, r.time_start.isSome := fun r hr =>
    hids r ((sortRowsDesc_perm rows).mem_iff.mp hr)
  obtain ⟨tl, htl⟩ := ids?_isSome_of_forall
    (fun r hr => hmem r (List.take_subset _ _ hr))
  obtain ⟨nl, hnl⟩ := ids?_isSome_of_forall
    (fun r hr => hmem r (List.drop_subset _ _ (List.take_subset _ _ hr)))
  exact ⟨tl, nl, htl, hnl, rank_sets_eq_of_ids htl hnl⟩

theorem sorted_map_ts_nodup {rows : List RawRow}
    (hidn : (rows.map RawRow.time_start).Nodup) :
    ((sortRowsDesc rows).map RawRow.time_start).Nodup :=
  ((sortRowsDesc_perm rows).map RawRow.time_start).nodup_iff.mpr hidn

theorem top_ids_nodup {rows : List RawRow} {tl : List String}
    (hidn : (rows.map RawRow.time_start).Nodup)
    (htl : ids? ((sortRowsDesc rows).take 16) = some tl) : tl.Nodup :=
  ids?_nodup htl (by
    rw [List.map_take]
    exact List.Pairwise.sublist (List.take_sublist _ _) (sorted_map_ts_nodup hidn))

theorem next_ids_nodup {rows : List RawRow} {nl : List String}
    (hidn : (rows.map RawRow.time_start).Nodup)
    (hnl : ids? (((sortRowsDesc rows).drop 16).take 8) = some nl) : nl.Nodup :=
  ids?_nodup hnl (by
    rw [List.map_take, List.map_drop]
    exact List.Pairwise.sublist ((List.take_sublist _ _).trans (List.drop_sublist _ _))
      (sorted_map_ts_nodup hidn))

theorem rank_sets_parts_disjoint {rows : List RawRow} {tl nl : List String}
    (hidn : (rows.map RawRow.time_start).Nodup)
    (htl : ids? ((sortRowsDesc rows).take 16) = some tl)
    (hnl : ids? (((sortRowsDesc rows).drop 16).take 8) = some nl) :
    Disjoint tl.toFinset nl.toFinset := by
  have hnd := sorted_map_ts_nodup hidn
  rw [Finset.disjoint_left]
  intro x hxt hxn
  rcases (ids?_mem_iff htl x).mp (List.mem_toFinset.mp hxt) with ⟨ra, hra, htsa⟩
  rcases (ids?_mem_iff hnl x).mp (List.mem_toFinset.mp hxn) with ⟨rb, hrb, htsb⟩
  have hnd2 : (((sortRowsDesc rows).take 16).map RawRow.time_start ++
      ((sortRowsDesc rows).drop 16).map RawRow.time_start).Nodup := by
    rw [← List.map_append, List.take_append_drop]
    exact hnd
  have hdisj2 := (List.nodup_append.mp hnd2).2.2
  have h1 : some x ∈ ((sortRowsDesc rows).take 16).map RawRow.time_start := by
    rw [← htsa]
    exact List.mem_map_of_mem _ hra
  have h2 : some x ∈ ((sortRowsDesc rows).drop 16).map RawRow.time_start := by
    rw [← htsb]
    exact List.mem_map_of_mem _ (List.take_subset _ _ hrb)
  exact hdisj2 h1 h2

theorem sorted_take_drop_le {s : List RawRow}
    (hs : s.Pairwise (fun a b => sortKey b ≤ sortKey a)) (n : ℕ) :
    ∀ a ∈ s.take n, ∀ b ∈ s.drop n, sortKey b ≤ sortKey a := by
  have h2 : (s.take n ++ s.drop n).Pairwise (fun a b => sortKey b ≤ sortKey a) := by
    rw [List.take_append_drop]
    exact hs
  exact fun a ha b hb => (List.pairwise_append.mp h2).2.2 a ha b hb

theorem displayKey_le_iff (display_ore include_vat : Bool) (a b : RawRow) :
    displayKey display_ore include_vat b ≤ displayKey display_ore include_vat a ↔
      sortKey b ≤ sortKey a := by
  unfold displayKey apply_unit_and_vat VAT_RATE
  rcases display_ore <;> rcases include_vat <;> simp <;>
    constructor <;> intro h <;> nlinarith [h]

theorem bar_colors_norm (top16 next8 : Finset String) (sel : Option Nat)
    (df : List DfRow) :
    build_colors top16 next8 sel df =
      df.map (fun r => if r.time_start ∈ top16 then COLOR_TOP16_PURPLE
        else if r.time_start ∈ next8 then COLOR_NEXT8_RED
        else COLOR_OTHER_GREEN) := by
  unfold build_colors
  simp only [ite_self]
  conv_rhs => rw [← List.enum_map_snd df]
  rw [List.map_map]
  rfl

/-! ## Claim theorems -/

/-- C2: the display transform multiplies the raw price by `1 + VAT_RATE`
(exactly 1.25, with the fixed 25 % rate) precisely when the tax flag is set,
then by 100 precisely when the subunit flag is set; consequently, for a fixed
tax flag, enabling the subunit flag multiplies every display price by exactly
100, and for a fixed unit flag, enabling the tax flag multiplies every
display price by exactly 1.25. -/
theorem apply_unit_and_vat_transform (x : ℚ) (display_ore include_vat : Bool) :
    apply_unit_and_vat x display_ore include_vat =
      (if include_vat then x * (1 + VAT_RATE) else x) * (if display_ore then 100 else 1) ∧
    VAT_RATE = 25 / 100 ∧
    apply_unit_and_vat x true include_vat = 100 * apply_unit_and_vat x false include_vat ∧
    apply_unit_and_vat x display_ore true = (125 / 100) * apply_unit_and_vat x display_ore false := by
  refine ⟨?_, by norm_num [VAT_RATE], ?_, ?_⟩ <;>
    unfold apply_unit_and_vat VAT_RATE <;>
    rcases display_ore <;> rcases include_vat <;> simp <;> ring

/-- C3: re-deriving the rank sets from the transformed display prices (the
spec-side `rank_sets_display`) yields exactly the same `(top, next)` pair as
`rank_sets` on the raw prices, for every row list and every flag setting:
the unit/tax transform is strictly monotone, so it never changes the
descending order the classifier sorts by. -/
theorem rank_sets_display_invariant (rows : List RawRow) (display_ore include_vat : Bool) :
    rank_sets_display display_ore include_vat rows = rank_sets rows := by
  have hcomp : rankLeDisplay display_ore include_vat = rankLe := by
    funext a b
    unfold rankLeDisplay rankLe
    exact decide_eq_decide.mpr (displayKey_le_iff display_ore include_vat a b)
  unfold rank_sets_display rank_sets sortRowsDesc
  rw [hcomp]

/-- C4: `fetch_day_rows` returns a present result exactly when the HTTP
response has status 200 and its body decodes to a non-empty JSON list; every
failure mode (raising transport call, non-200 status, raising or non-list
decode, empty list) yields the single absent result `none`, and — the
function being total on every outcome — no exception escapes to the
caller. -/
theorem fetch_day_rows_present_iff (o : FetchOutcome) :
    ((fetch_day_rows o).isSome ↔
      ∃ rows, o = FetchOutcome.response 200 (JsonBody.list rows) ∧ rows ≠ []) ∧
    (∀ rows, fetch_day_rows o = some rows →
      o = FetchOutcome.response 200 (JsonBody.list rows) ∧ rows ≠ []) := by
  rcases o with _ | ⟨s, b⟩
  · simp [fetch_day_rows]
  · by_cases hs : s = 200
    · subst hs
      rcases b with _ | _ | data
      · simp [fetch_day_rows]
      · simp [fetch_day_rows]
      · rcases data with _ | ⟨r, rest⟩
        · simp [fetch_day_rows]
        · constructor
          · simp [fetch_day_rows]
          · intro rows h
            simp [fetch_day_rows] at h
            subst h
            simp
    · constructor
      · simp [fetch_day_rows, hs]
      · intro rows h
        simp [fetch_day_rows, hs] at h

/-- Witness for C4: a 200 response with one row is reported present with
exactly that payload. -/
theorem fetch_day_rows_present_iff_witness :
    FetchOutcome.response 200 (JsonBody.list [⟨some "a", some 1⟩]) =
        FetchOutcome.response 200 (JsonBody.list [⟨some "a", some 1⟩]) ∧
      ([(⟨some "a", some 1⟩ : RawRow)] : List RawRow) ≠ [] :=
  (fetch_day_rows_present_iff _).2 [⟨some "a", some 1⟩] (by decide)

/-- C6 counterexample: a selection index stored while a previous table was
shown (session entry `some (some 5)`) survives the fetch of a new day/area:
the initialization step keeps it, and the figure for the new table is built
with bar 5 still selected instead of no-selection. -/
theorem selected_idx_not_cleared_cex :
    init_selected_idx (some (some 5)) = some 5 ∧
      (render_cycle (some (some 5)) none).used_selected = some 5 ∧
      (some 5 : Option ℕ) ≠ none := by
  refine ⟨rfl, rfl, by simp⟩

/-- C6 amended: the session key is initialized to no-selection only when it
is absent; once a click stores an index, every later run — in particular a
run that fetches a different day or area, since the script never clears the
key on a parameter change — builds its figure with that same index. -/
theorem selected_idx_persistence (prev : Option (Option Nat)) (i : Nat) :
    (render_cycle ((render_cycle prev (some i)).state_after) none).used_selected = some i ∧
    init_selected_idx none = none ∧
    (∀ v, init_selected_idx (some v) = v) := by
  rcases prev with _ | v <;>
    exact ⟨rfl, rfl, fun v => rfl⟩

/-- C7: each bar's fill color is given by a first-match-wins priority on the
bar's `time_start` identifier — purple for members of `top16`, else red for
members of `next8`, else green — for every display table, rank sets, and
selection index (the selected-bar branch of the loop reassigns the same
color, so selection does not enter the rule). -/
theorem build_colors_priority (top16 next8 : Finset String) (sel : Option Nat)
    (df : List DfRow) :
    build_colors top16 next8 sel df =
      df.map (fun r => if r.time_start ∈ top16 then COLOR_TOP16_PURPLE
        else if r.time_start ∈ next8 then COLOR_NEXT8_RED
        else COLOR_OTHER_GREEN) :=
  bar_colors_norm top16 next8 sel df

/-- C10: bar fill colors are identical under any two selection states, and
whenever a selection index is set, the black width-1 marker border is
applied to every bar of the chart, not only the selected one. -/
theorem build_colors_selection_and_border (top16 next8 : Finset String)
    (df : List DfRow) (sel sel' : Option Nat) :
    build_colors top16 next8 sel df = build_colors top16 next8 sel' df ∧
    (∀ k : Nat, ∀ m ∈ build_bar_markers top16 next8 (some k) df,
      m.line_color = "black" ∧ m.line_width = 1) := by
  constructor
  · rw [bar_colors_norm, bar_colors_norm]
  · intro k m hm
    unfold build_bar_markers at hm
    rcases List.mem_map.mp hm with ⟨c, _, rfl⟩
    exact ⟨rfl, rfl⟩

/-- C1: on at least 24 rows with pairwise-distinct raw prices and
pairwise-distinct `time_start` identifiers, `rank_sets` returns a pair whose
`top` holds exactly 16 identifiers and whose `next` holds exactly 8, the two
are disjoint, the raw price of every row whose identifier is in `top` is at
least the raw price of every row whose identifier is in `next`, and the
latter is at least the raw price of every row whose identifier is in
neither set. -/
theorem rank_sets_spec (rows : List RawRow)
    (hl : 24 ≤ rows.length)
    (hids : ∀ r ∈ rows, r.time_start.isSome)
    (hps : ∀ r ∈ rows, r.SEK_per_kWh.isSome)
    (hidn : (rows.map RawRow.time_start).Nodup)
    (hpn : (rows.map RawRow.SEK_per_kWh).Nodup) :
    ∃ top16 next8 : Finset String, rank_sets rows = some (top16, next8) ∧
      top16.card = 16 ∧ next8.card = 8 ∧ Disjoint top16 next8 ∧
      (∀ a ∈ rows, ∀ b ∈ rows, ∀ ia ib : String, ∀ pa pb : ℚ,
        a.time_start = some ia → b.time_start = some ib →
        a.SEK_per_kWh = some pa → b.SEK_per_kWh = some pb →
        ((ia ∈ top16 ∧ ib ∈ next8) → pb ≤ pa) ∧
        ((ia ∈ next8 ∧ ib ∉ top16 ∧ ib ∉ next8) → pb ≤ pa)) := by
  obtain ⟨tl, nl, htl, hnl, heq⟩ := rank_sets_success hids
  have hperm := sortRowsDesc_perm rows
  have hsort := sortRowsDesc_sorted rows
  have hlen : (sortRowsDesc rows).length = rows.length := hperm.length_eq
  have hnd : ((sortRowsDesc rows).map RawRow.time_start).Nodup := sorted_map_ts_nodup hidn
  have hinj := List.inj_on_of_nodup_map hnd
  have htl_card : tl.toFinset.card = 16 := by
    rw [List.toFinset_card_of_nodup (top_ids_nodup hidn htl), ids?_length htl,
      List.length_take, hlen]
    omega
  have hnl_card : nl.toFinset.card = 8 := by
    rw [List.toFinset_card_of_nodup (next_ids_nodup hidn hnl), ids?_length hnl,
      List.length_take, List.length_drop, hlen]
    omega
  refine ⟨tl.toFinset, nl.toFinset, heq, htl_card, hnl_card,
    rank_sets_parts_disjoint hidn htl hnl, ?_⟩
  intro a ha b hb ia ib pa pb hta htb hpa hpb
  have ha_s : a ∈ sortRowsDesc rows := hperm.mem_iff.mpr ha
  have hb_s : b ∈ sortRowsDesc rows := hperm.mem_iff.mpr hb
  have hka : sortKey a = pa := by simp [sortKey, hpa]
  have hkb : sortKey b = pb := by simp [sortKey, hpb]
  constructor
  · rintro ⟨hia, hib⟩
    rcases (ids?_mem_iff htl ia).mp (List.mem_toFinset.mp hia) with ⟨ra, hra, htsa⟩
    have haeq : a = ra := hinj ha_s (List.take_subset _ _ hra) (by rw [hta, htsa])
    rcases (ids?_mem_iff hnl ib).mp (List.mem_toFinset.mp hib) with ⟨rb, hrb, htsb⟩
    have hbeq : b = rb :=
      hinj hb_s (List.drop_subset _ _ (List.take_subset _ _ hrb)) (by rw [htb, htsb])
    have := sorted_take_drop_le hsort 16 a (haeq ▸ hra) b
      (hbeq ▸ List.take_subset _ _ hrb)
    rw [hka, hkb] at this
    exact this
  · rintro ⟨hia, hibt, hibn⟩
    rcases (ids?_mem_iff hnl ia).mp (List.mem_toFinset.mp hia) with ⟨ra, hra, htsa⟩
    have haeq : a = ra :=
      hinj ha_s (List.drop_subset _ _ (List.take_subset _ _ hra)) (by rw [hta, htsa])
    have hb_s' : b ∈ (sortRowsDesc rows).take 16 ++ (sortRowsDesc rows).drop 16 := by
      rw [List.take_append_drop]
      exact hb_s
    rcases List.mem_append.mp hb_s' with hbA | hbD
    · exact absurd (List.mem_toFinset.mpr ((ids?_mem_iff htl ib).mpr ⟨b, hbA, htb⟩)) hibt
    · have hbD' : b ∈ ((sortRowsDesc rows).drop 16).take 8 ++
          ((sortRowsDesc rows).drop 16).drop 8 := by
        rw [List.take_append_drop]
        exact hbD
      rcases List.mem_append.mp hbD' with hbB | hbC
      · exact absurd (List.mem_toFinset.mpr ((ids?_mem_iff hnl ib).mpr ⟨b, hbB, htb⟩)) hibn
      · have hsort16 : ((sortRowsDesc rows).drop 16).Pairwise
            (fun a b => sortKey b ≤ sortKey a) :=
          List.Pairwise.sublist (List.drop_sublist _ _) hsort
        have := sorted_take_drop_le hsort16 8 a (haeq ▸ hra) b hbC
        rw [hka, hkb] at this
        exact this

/-- Witness for C1 on a concrete 24-row day with distinct identifiers and
strictly descending distinct prices. -/
theorem rank_sets_spec_witness :
    (24 ≤ exRows24.length) ∧
    (∃ top16 next8 : Finset String, rank_sets exRows24 = some (top16, next8) ∧
      top16.card = 16 ∧ next8.card = 8 ∧ Disjoint top16 next8 ∧
      (∀ a ∈ exRows24, ∀ b ∈ exRows24, ∀ ia ib : String, ∀ pa pb : ℚ,
        a.time_start = some ia → b.time_start = some ib →
        a.SEK_per_kWh = some pa → b.SEK_per_kWh = some pb →
        ((ia ∈ top16 ∧ ib ∈ next8) → pb ≤ pa) ∧
        ((ia ∈ next8 ∧ ib ∉ top16 ∧ ib ∉ next8) → pb ≤ pa))) :=
  ⟨by decide,
    rank_sets_spec exRows24 (by decide) (by decide) (by decide) (by decide) (by decide)⟩

/-- C5 counterexample: two rows sharing the identifier `"a"`: both rank-set
cardinalities together total 1, not `min 2 24 = 2`, because the two slots of
the descending sort collapse into one set element. -/
theorem rank_sets_small_count_cex :
    rank_sets exRowsDup = some ({"a"}, ∅) ∧
      ¬ (({"a"} : Finset String).card + (∅ : Finset String).card =
        min exRowsDup.length 24) := by
  constructor
  · unfold rank_sets sortRowsDesc
    rw [List.mergeSort_of_sorted (by decide)]
    decide
  · decide

/-- C5 amended: for rows with present, pairwise-distinct `time_start`
identifiers and fewer than 24 rows, `rank_sets` succeeds (the slicing
degrades gracefully, never an error), the two sets are disjoint with
`|top| + |next| = min(count, 24)`, and an empty input yields two empty
sets. -/
theorem rank_sets_small_count (rows : List RawRow)
    (hl : rows.length < 24)
    (hids : ∀ r ∈ rows, r.time_start.isSome)
    (hidn : (rows.map RawRow.time_start).Nodup) :
    ∃ top16 next8 : Finset String, rank_sets rows = some (top16, next8) ∧
      top16.card + next8.card = min rows.length 24 ∧
      Disjoint top16 next8 ∧
      (rows = [] → top16 = ∅ ∧ next8 = ∅) := by
  obtain ⟨tl, nl, htl, hnl, heq⟩ := rank_sets_success hids
  have hlen : (sortRowsDesc rows).length = rows.length := (sortRowsDesc_perm rows).length_eq
  have htl_card : tl.toFinset.card = min 16 rows.length := by
    rw [List.toFinset_card_of_nodup (top_ids_nodup hidn htl), ids?_length htl,
      List.length_take, hlen]
  have hnl_card : nl.toFinset.card = min 8 (rows.length - 16) := by
    rw [List.toFinset_card_of_nodup (next_ids_nodup hidn hnl), ids?_length hnl,
      List.length_take, List.length_drop, hlen]
  refine ⟨tl.toFinset, nl.toFinset, heq, ?_,
    rank_sets_parts_disjoint hidn htl hnl, ?_⟩
  · rw [htl_card, hnl_card]
    omega
  · intro hrows
    subst hrows
    rw [show sortRowsDesc ([] : List RawRow) = [] from List.mergeSort_nil] at htl hnl
    simp only [List.take_nil, List.drop_nil, ids?, Option.some_inj] at htl hnl
    subst htl
    subst hnl
    exact ⟨rfl, rfl⟩

/-- Witness for C5 on a concrete three-row list with distinct identifiers. -/
theorem rank_sets_small_count_witness :
    (exRowsC8.length < 24) ∧
    (∃ top16 next8 : Finset String, rank_sets exRowsC8 = some (top16, next8) ∧
      top16.card + next8.card = min exRowsC8.length 24 ∧
      Disjoint top16 next8 ∧
      (exRowsC8 = [] → top16 = ∅ ∧ next8 = ∅)) :=
  ⟨by decide, rank_sets_small_count exRowsC8 (by decide) (by decide) (by decide)⟩

/-- Ids are insensitive to the missing-price repair map. -/
theorem ids?_map_fill (l : List RawRow) :
    ids? (l.map fill_default_price) = ids? l := by
  induction l with
  | nil => rfl
  | cons r rs ih =>
    simp only [List.map_cons, ids?]
    rw [ih]
    rfl

/-- A failed `rank_sets` is exactly a failed identifier extraction on one of
the two slices. -/
theorem rank_sets_eq_none_iff {rows : List RawRow} :
    rank_sets rows = none ↔
      ids? ((sortRowsDesc rows).take 16) = none ∨
      ids? (((sortRowsDesc rows).drop 16).take 8) = none := by
  simp only [rank_sets]
  cases ids? ((sortRowsDesc rows).take 16) <;>
    cases ids? (((sortRowsDesc rows).drop 16).take 8) <;> simp

/-- C9 counterexample: 25 rows where the only row lacking `time_start` has
the lowest price: it sorts below the first 24 positions, its identifier is
never subscripted, and `rank_sets` succeeds instead of failing. -/
theorem rank_sets_missing_id_cex :
    (∃ r ∈ exRows25, r.time_start = none) ∧ (rank_sets exRows25).isSome = true := by
  constructor
  · exact ⟨⟨none, some 0⟩, by decide, rfl⟩
  · unfold rank_sets sortRowsDesc
    rw [List.mergeSort_of_sorted (by decide)]
    decide

/-- C9 amended: `rank_sets` treats a row lacking `SEK_per_kWh` as having
price `0.0` (replacing every missing price by an explicit `0.0` leaves the
result unchanged), and missing prices never cause a failure — with all
identifiers present the function succeeds; a row lacking `time_start` makes
`rank_sets` fail exactly when such a row lies within the first 24 positions
of the descending price sort (rows sorted beyond position 24 are never
subscripted). -/
theorem rank_sets_missing_fields (rows : List RawRow) :
    rank_sets (rows.map fill_default_price) = rank_sets rows ∧
    ((∀ r ∈ rows, r.time_start.isSome) → ∃ p, rank_sets rows = some p) ∧
    (rank_sets rows = none ↔
      ∃ r ∈ (sortRowsDesc rows).take 24, r.time_start = none) := by
  refine ⟨?_, ?_, ?_⟩
  · have hmap : sortRowsDesc (rows.map fill_default_price) =
        (sortRowsDesc rows).map fill_default_price := by
      unfold sortRowsDesc
      exact (@List.map_mergeSort _ _ rankLe rankLe fill_default_price rows
        (fun a _ b _ => rfl)).symm
    simp only [rank_sets]
    rw [hmap, ← List.map_drop, ← List.map_take, ← List.map_take,
      ids?_map_fill, ids?_map_fill]
  · intro hids
    obtain ⟨tl, nl, _, _, heq⟩ := rank_sets_success hids
    exact ⟨_, heq⟩
  · rw [rank_sets_eq_none_iff, ids?_eq_none_iff, ids?_eq_none_iff,
      show (24 : ℕ) = 16 + 8 from rfl, take_split]
    constructor
    · rintro (⟨r, hr, hts⟩ | ⟨r, hr, hts⟩)
      · exact ⟨r, List.mem_append.mpr (Or.inl hr), hts⟩
      · exact ⟨r, List.mem_append.mpr (Or.inr hr), hts⟩
    · rintro ⟨r, hr, hts⟩
      rcases List.mem_append.mp hr with h | h
      · exact Or.inl ⟨r, h, hts⟩
      · exact Or.inr ⟨r, h, hts⟩

/-- Witness for C9's no-failure part on a concrete list. -/
theorem rank_sets_missing_fields_witness :
    (∀ r ∈ exRowsDup, r.time_start.isSome) ∧
      (∃ p, rank_sets exRowsDup = some p) :=
  ⟨by decide, (rank_sets_missing_fields exRowsDup).2.1 (by decide)⟩

theorem startLe_trans (a b c : DfRow) : startLe a b → startLe b c → startLe a c := by
  unfold startLe
  intro h1 h2
  exact decide_eq_true (le_trans (of_decide_eq_true h1) (of_decide_eq_true h2))

theorem startLe_total (a b : DfRow) : startLe a b || startLe b a := by
  unfold startLe
  rcases le_total a.start_instant b.start_instant with h | h <;> simp [h]

theorem displays?_parts {display_ore include_vat : Bool} {l : List RawRow}
    {ds : List DfRow}
    (h : displays? display_ore include_vat l = some ds) :
    ds.length = l.length ∧
      ∀ d ∈ ds, ∃ r ∈ l, mk_display_row display_ore include_vat r = some d := by
  induction l generalizing ds with
  | nil =>
    simp only [displays?, Option.some_inj] at h
    subst h
    exact ⟨rfl, by simp⟩
  | cons r rs ih =>
    cases hd : mk_display_row display_ore include_vat r with
    | none => simp [displays?, hd] at h
    | some d0 =>
      cases hds : displays? display_ore include_vat rs with
      | none => simp [displays?, hd, hds] at h
      | some ds0 =>
        simp only [displays?, hd, hds, Option.some_inj] at h
        subst h
        obtain ⟨hlen, hmem⟩ := ih hds
        refine ⟨by simp [hlen], ?_⟩
        intro d hd2
        rcases List.mem_cons.mp hd2 with rfl | hmem2
        · exact ⟨r, List.mem_cons_self _ _, hd⟩
        · obtain ⟨r', hr', he⟩ := hmem d hmem2
          exact ⟨r', List.mem_cons_of_mem _ hr', he⟩

theorem mergeSort_pair {α : Type} (a b : α) (le : α → α → Bool) :
    [a, b].mergeSort le = if le a b then [a, b] else [b, a] := by
  rcases h : le a b <;> simp [List.mergeSort, List.splitInTwo, List.merge, h]

/-- C8: on a non-empty row list, a successful `to_dataframe` parses every
`time_start` as a UTC instant, localizes it to Europe/Stockholm (an
instant-preserving relabelling; `start_offset` records the zone's UTC
offset), and returns the non-empty table sorted ascending by the local
start instant — a permutation of the per-row displays, so any input order
yields the same time-ascending table. -/
theorem to_dataframe_sorted_by_local_start (rows : List RawRow)
    (display_ore include_vat : Bool) (out : List DfRow)
    (hne : rows ≠ [])
    (h : to_dataframe rows display_ore include_vat = some out) :
    out ≠ [] ∧
    out.Pairwise (fun a b => a.start_instant ≤ b.start_instant) ∧
    (∃ ds, displays? display_ore include_vat rows = some ds ∧ out.Perm ds) ∧
    out.length = rows.length ∧
    (∀ d ∈ out, ∃ r ∈ rows, r.time_start = some d.time_start ∧
      parse_utc_instant d.time_start = some d.start_instant ∧
      d.start_offset = stockholm_offset d.start_instant ∧
      ∃ p, r.SEK_per_kWh = some p ∧
        d.price_display = apply_unit_and_vat p display_ore include_vat) := by
  unfold to_dataframe at h
  cases hds : displays? display_ore include_vat rows with
  | none =>
    rw [hds] at h
    cases h
  | some ds =>
    rw [hds] at h
    simp only [Option.map_some', Option.some_inj] at h
    subst h
    obtain ⟨hlen, hmem⟩ := displays?_parts hds
    have hperm : (ds.mergeSort startLe).Perm ds := List.mergeSort_perm ds startLe
    have hlen2 : (ds.mergeSort startLe).length = rows.length := by
      rw [hperm.length_eq, hlen]
    refine ⟨?_, ?_, ⟨ds, rfl, hperm⟩, hlen2, ?_⟩
    · intro hempty
      rw [hempty] at hlen2
      exact hne (List.length_eq_zero.mp hlen2.symm)
    · exact (List.sorted_mergeSort startLe_trans startLe_total ds).imp
        (fun hab => of_decide_eq_true hab)
    · intro d hd
      obtain ⟨r, hr, he⟩ := hmem d (hperm.mem_iff.mp hd)
      simp only [mk_display_row, Option.bind_eq_bind, Option.bind_eq_some,
        Option.some_inj] at he
      obtain ⟨ts, hts, p, hp, t, ht, hde⟩ := he
      subst hde
      exact ⟨r, hr, hts, by simpa using ht, rfl, p, hp, rfl⟩

/-- Witness for C8: two rows arriving in reverse time order come out
time-ascending with parsed instants and summer-time offsets. -/
theorem to_dataframe_sorted_by_local_start_witness :
    (exRowsC8 ≠ []) ∧ to_dataframe exRowsC8 false false = some exOutC8 ∧
    (exOutC8 ≠ [] ∧
      exOutC8.Pairwise (fun a b => a.start_instant ≤ b.start_instant) ∧
      (∃ ds, displays? false false exRowsC8 = some ds ∧ exOutC8.Perm ds) ∧
      exOutC8.length = exRowsC8.length ∧
      (∀ d ∈ exOutC8, ∃ r ∈ exRowsC8, r.time_start = some d.time_start ∧
        parse_utc_instant d.time_start = some d.start_instant ∧
        d.start_offset = stockholm_offset d.start_instant ∧
        ∃ p, r.SEK_per_kWh = some p ∧
          d.price_display = apply_unit_and_vat p false false)) := by
  have hdisp : displays? false false exRowsC8 =
      some [⟨"2025-06-01T00:15:00Z", 1748736900, 7200, mkRat 6 5⟩,
            ⟨"2025-06-01T00:00:00Z", 1748736000, 7200, mkRat 1 2⟩] := by
    decide
  have hEval : to_dataframe exRowsC8 false false = some exOutC8 := by
    unfold to_dataframe
    rw [hdisp]
    simp only [Option.map_some', Option.some_inj]
    rw [mergeSort_pair]
    decide
  exact ⟨by decide, hEval,
    to_dataframe_sorted_by_local_start exRowsC8 false false exOutC8 (by decide) hEval⟩

/-- Witness for C10: with bar 0 selected on a two-bar table, the marker of
the unselected second bar also carries the black width-1 border. -/
theorem build_colors_selection_and_border_witness :
    (BarMarker.mk COLOR_OTHER_GREEN "black" 1) ∈
        build_bar_markers ∅ ∅ (some 0) exDf2 ∧
      (BarMarker.mk COLOR_OTHER_GREEN "black" 1).line_color = "black" ∧
      (BarMarker.mk COLOR_OTHER_GREEN "black" 1).line_width = 1 :=
  ⟨by decide,
    (build_colors_selection_and_border ∅ ∅ exDf2 none none).2 0
      (BarMarker.mk COLOR_OTHER_GREEN "black" 1) (by decide)⟩

end ElprisApp
